import Mathlib

/-!
Verification of the OpenAI adapter for the ADK generic LLM model
(`openai.go`).  The Go source is shallowly embedded: pure conversion
functions become Lean functions, the streaming aggregation loop becomes a
fold over the list of received chunks, Go `string` becomes `String`,
Go `int` becomes `Int` (with an explicit wrap for `int32` casts), nilable
pointers become `Option`, and Go slices become lists (with `Option (List _)`
where nil-slice versus empty-slice matters).

The JSON library (`encoding/json`) and base64 encoder are external
collaborators of the adapter; they are abstracted as an `Ext` record of
functions, so all theorems hold for every behaviour of those collaborators.
String-valued enum constants taken from the external `google.golang.org/genai`
and `github.com/sashabaranov/go-openai` packages are reproduced verbatim
as definitions below.
-/

namespace AdkOpenAI

/-- External collaborators: `encoding/json` marshal / unmarshal over the
dynamic mapping type `J` (Go `map[string]any`), the empty mapping (Go
`make(map[string]any)`), and `encoding/base64` encoding.  `none` models a
returned Go error. -/
structure Ext (J : Type) where
  marshal : J → Option String
  unmarshal : String → Option J
  empty : J
  base64 : List Nat → String

/-! Enum constants of `github.com/sashabaranov/go-openai`. -/

def ChatMessageRoleUser : String := "user"

def ChatMessageRoleAssistant : String := "assistant"

def ChatMessageRoleSystem : String := "system"

def ChatMessageRoleTool : String := "tool"

def ToolTypeFunction : String := "function"

def ChatMessagePartTypeText : String := "text"

def ChatMessagePartTypeImageURL : String := "image_url"

def ImageURLDetailAuto : String := "auto"

/-! Enum constants of `google.golang.org/genai`.  In that package
`FinishReason`, `Role` and `Type` are string types whose zero value is the
empty string; the named constants are the wire values reproduced here. -/

def RoleModel : String := "model"

def FinishReasonStop : String := "STOP"

def FinishReasonMaxTokens : String := "MAX_TOKENS"

def FinishReasonSafety : String := "SAFETY"

def FinishReasonUnspecified : String := "FINISH_REASON_UNSPECIFIED"

def TypeUnspecified : String := "TYPE_UNSPECIFIED"

def TypeString : String := "STRING"

def TypeNumber : String := "NUMBER"

def TypeInteger : String := "INTEGER"

def TypeBoolean : String := "BOOLEAN"

def TypeArray : String := "ARRAY"

def TypeObject : String := "OBJECT"

/-- Go `int32(n)` applied to an `int`: wrap into `[-2^31, 2^31)`. -/
def int32cast (n : Int) : Int := (n + 2 ^ 31) % 2 ^ 32 - 2 ^ 31

/-! ## Generic (genai) data model -/

/-- `genai.FunctionCall`: id, name and the argument mapping. -/
structure FunctionCall (J : Type) where
  id : String
  name : String
  args : J
  deriving DecidableEq

/-- `genai.FunctionResponse`. -/
structure FunctionResponse (J : Type) where
  id : String
  name : String
  response : J
  deriving DecidableEq

/-- `genai.Blob`: inline data with a MIME type and raw bytes. -/
structure Blob where
  mimeType : String
  data : List Nat
  deriving DecidableEq

/-- `genai.Part`: in Go a struct whose fields are a text string and
nilable pointers; the code discriminates on non-empty text / non-nil
pointers. `fileData` carries no information the adapter reads. -/
structure Part (J : Type) where
  text : String := ""
  functionCall : Option (FunctionCall J) := none
  functionResponse : Option (FunctionResponse J) := none
  inlineData : Option Blob := none
  fileData : Option Unit := none
  deriving DecidableEq

/-- `genai.Content`. -/
structure Content (J : Type) where
  role : String := ""
  parts : List (Part J) := []
  deriving DecidableEq

/-- `genai.GenerateContentResponseUsageMetadata` (the fields the adapter
writes). -/
structure UsageMetadata where
  promptTokenCount : Int := 0
  candidatesTokenCount : Int := 0
  totalTokenCount : Int := 0
  cachedContentTokenCount : Int := 0
  deriving DecidableEq

/-- `model.LLMResponse` (the fields the adapter writes). -/
structure LLMResponse (J : Type) where
  content : Content J
  usageMetadata : Option UsageMetadata := none
  finishReason : String := ""
  Partial : Bool := false
  turnComplete : Bool := false
  deriving DecidableEq

/-! ## Wire (go-openai) data model -/

/-- `openai.FunctionCall` inside a wire tool call: name plus the JSON
argument text. -/
structure WireFunctionCall where
  name : String := ""
  arguments : String := ""
  deriving DecidableEq

/-- `openai.ToolCall`; `index` is the nilable `*int` used only by
streaming deltas. -/
structure ToolCall where
  index : Option Int := none
  id : String := ""
  type : String := ""
  function : WireFunctionCall := {}
  deriving DecidableEq

/-- `openai.ChatMessageImageURL`. -/
structure ChatMessageImageURL where
  url : String := ""
  detail : String := ""
  deriving DecidableEq

/-- `openai.ChatMessagePart`. -/
structure ChatMessagePart where
  type : String := ""
  text : String := ""
  imageURL : Option ChatMessageImageURL := none
  deriving DecidableEq

/-- `openai.ChatCompletionMessage` (the fields the adapter writes). -/
structure ChatCompletionMessage where
  role : String := ""
  content : String := ""
  multiContent : List ChatMessagePart := []
  toolCalls : List ToolCall := []
  toolCallID : String := ""
  deriving DecidableEq

/-- `openai.PromptTokensDetails` (nilable in `openai.Usage`). -/
structure PromptTokensDetails where
  cachedTokens : Int := 0
  deriving DecidableEq

/-- `openai.Usage`. -/
structure WireUsage where
  promptTokens : Int := 0
  completionTokens : Int := 0
  totalTokens : Int := 0
  promptTokensDetails : Option PromptTokensDetails := none
  deriving DecidableEq

/-- `openai.ChatCompletionChoice`. -/
structure ChatCompletionChoice where
  message : ChatCompletionMessage := {}
  finishReason : String := ""
  deriving DecidableEq

/-- `openai.ChatCompletionResponse` (the fields the adapter reads). -/
structure ChatCompletionResponse where
  choices : List ChatCompletionChoice := []
  usage : WireUsage := {}
  deriving DecidableEq

/-- `openai.ChatCompletionStreamChoiceDelta` (the fields the adapter
reads). -/
structure StreamDelta where
  content : String := ""
  toolCalls : List ToolCall := []
  deriving DecidableEq

/-- `openai.ChatCompletionStreamChoice` (the fields the adapter reads). -/
structure StreamChoice where
  delta : StreamDelta := {}
  finishReason : String := ""
  deriving DecidableEq

/-- `openai.ChatCompletionStreamResponse` (the fields the adapter reads);
`usage` is a nilable pointer. -/
structure StreamChunk where
  choices : List StreamChoice := []
  usage : Option WireUsage := none
  deriving DecidableEq

/-! ## Leaf conversion functions (`openai.go`) -/

/-- `convertRoleToOpenAI` (openai.go:535). -/
def convertRoleToOpenAI (role : String) : String :=
  if role = "user" then ChatMessageRoleUser
  else if role = "model" then ChatMessageRoleAssistant
  else if role = "system" then ChatMessageRoleSystem
  else ChatMessageRoleUser

/-- `convertFinishReason` (openai.go:548). -/
def convertFinishReason (reason : String) : String :=
  if reason = "stop" then FinishReasonStop
  else if reason = "length" then FinishReasonMaxTokens
  else if reason = "tool_calls" ∨ reason = "function_call" then FinishReasonStop
  else if reason = "content_filter" then FinishReasonSafety
  else FinishReasonUnspecified

/-- `parseJSONArgs` (openai.go:593): empty input and unmarshal failure both
yield the empty mapping. -/
def parseJSONArgs {J : Type} (ext : Ext J) (argsJSON : String) : J :=
  if argsJSON = "" then ext.empty
  else
    match ext.unmarshal argsJSON with
    | some args => args
    | none => ext.empty

/-! ## Streaming aggregator (`generateStream`, openai.go:79) -/

/-- `toolCallBuilder` (openai.go:227). -/
structure ToolCallBuilder where
  id : String := ""
  name : String := ""
  args : String := ""
  deriving DecidableEq

/-- Lookup in the association list modelling Go's `map[int]*toolCallBuilder`. -/
def lookupEntry : List (Int × ToolCallBuilder) → Int → Option ToolCallBuilder
  | [], _ => none
  | (k', b) :: rest, k => if k' = k then some b else lookupEntry rest k

/-- Replace the entry at a key, or append it when the key is absent.  The
association list keeps entries in first-insertion order; the Go map has no
observable order, and the only read of the whole map (the final emission)
sorts the keys first, so any order is adequate. -/
def setEntry : List (Int × ToolCallBuilder) → Int → ToolCallBuilder →
    List (Int × ToolCallBuilder)
  | [], k, b => [(k, b)]
  | (k', b') :: rest, k, b =>
    if k' = k then (k', b) :: rest else (k', b') :: setEntry rest k b

/-- One tool-call delta fragment applied to the accumulator map
(openai.go:140-167): resolve the index (0 when the `*int` is nil), create
the entry on first sight, then set id/name when the fragment's are
non-empty and append the fragment's argument text when non-empty. -/
def applyToolCallFragment (m : List (Int × ToolCallBuilder)) (tc : ToolCall) :
    List (Int × ToolCallBuilder) :=
  let idx := tc.index.getD 0
  let b0 : ToolCallBuilder :=
    match lookupEntry m idx with
    | some b => b
    | none => { id := tc.id, name := tc.function.name, args := "" }
  let b1 : ToolCallBuilder :=
    { id := if tc.id ≠ "" then tc.id else b0.id
      name := if tc.function.name ≠ "" then tc.function.name else b0.name
      args := if tc.function.arguments ≠ "" then b0.args ++ tc.function.arguments
              else b0.args }
  setEntry m idx b1

/-- The loop state of `generateStream`: the aggregated parts, the
last-seen finish reason (zero value `""`), the last-seen usage metadata
(nil when never reported) and the tool-call accumulator map. -/
structure StreamState (J : Type) where
  parts : List (Part J) := []
  finishReason : String := ""
  usage : Option UsageMetadata := none
  toolCalls : List (Int × ToolCallBuilder) := []
  deriving DecidableEq

/-- The initial state of the aggregation loop (openai.go:96-104). -/
def initState (J : Type) : StreamState J := {}

/-- The partial response emitted for one freshly received text fragment
(openai.go:128-132). -/
def partialTextResponse (J : Type) (s : String) : LLMResponse J :=
  { content := { role := "model", parts := [{ text := s }] }
    Partial := true
    turnComplete := false }

/-- The loop body of `generateStream` for one received chunk
(openai.go:116-182), returning the new state and the partial responses
yielded while processing the chunk. -/
def processChunk {J : Type} (st : StreamState J) (chunk : StreamChunk) :
    StreamState J × List (LLMResponse J) :=
  match chunk.choices with
  | [] => (st, [])
  | choice :: _ =>
    let (st, emitted) :=
      if choice.delta.content ≠ "" then
        ({ st with parts := st.parts ++ [{ text := choice.delta.content }] },
         [partialTextResponse J choice.delta.content])
      else (st, [])
    let st := { st with
      toolCalls := choice.delta.toolCalls.foldl applyToolCallFragment st.toolCalls }
    let st :=
      if choice.finishReason ≠ "" then
        { st with finishReason := convertFinishReason choice.finishReason }
      else st
    let st :=
      match chunk.usage with
      | some u =>
        let um : UsageMetadata :=
          { promptTokenCount := int32cast u.promptTokens
            candidatesTokenCount := int32cast u.completionTokens
            totalTokenCount := int32cast u.totalTokens }
        { st with usage := some um }
      | none => st
    (st, emitted)

/-- The aggregation loop over the whole chunk sequence up to end-of-stream,
collecting the partial emissions in order. -/
def streamFold {J : Type} (st : StreamState J) :
    List StreamChunk → StreamState J × List (LLMResponse J)
  | [] => (st, [])
  | c :: cs =>
    let r := processChunk st c
    let rest := streamFold r.1 cs
    (rest.1, r.2 ++ rest.2)

/-- One comparison-and-swap pass of the bubble sort (openai.go:193-199):
adjacent keys out of order are swapped, carrying the larger forward.  The
source bounds pass `i` to the first `n-i` array slots; after `i` passes
the last `i` slots already hold the `i` largest keys in order, so the
comparisons this unbounded pass performs beyond that bound never swap and
the computed list is the same. -/
def bubblePass : List Int → List Int
  | a :: b :: rest =>
    if b < a then b :: bubblePass (a :: rest) else a :: bubblePass (b :: rest)
  | l => l

/-- The outer loop of the bubble sort: `n` passes. -/
def sortPasses : Nat → List Int → List Int
  | 0, l => l
  | n + 1, l => sortPasses n (bubblePass l)

/-- The index sort of openai.go:188-199: `len-1` passes over the key list. -/
def bubbleSort (l : List Int) : List Int := sortPasses (l.length - 1) l

/-- The function-call part built from one accumulated builder
(openai.go:203-209).  In the source the map lookup is always at a key of
the map, so the default builder of `getD` is never used. -/
def builderPart {J : Type} (ext : Ext J) (m : List (Int × ToolCallBuilder))
    (idx : Int) : Part J :=
  let b := (lookupEntry m idx).getD {}
  { functionCall := some { id := b.id, name := b.name, args := parseJSONArgs ext b.args } }

/-- The single final response emitted at end-of-stream
(openai.go:186-222): the accumulated tool calls are appended as
function-call parts in ascending key order after the aggregated text
parts. -/
def finalResponse {J : Type} (ext : Ext J) (st : StreamState J) : LLMResponse J :=
  let fparts := (bubbleSort (st.toolCalls.map Prod.fst)).map (builderPart ext st.toolCalls)
  { content := { role := "model", parts := st.parts ++ fparts }
    usageMetadata := st.usage
    finishReason := st.finishReason
    Partial := false
    turnComplete := true }

/-- `generateStream` on a chunk sequence that ends in end-of-stream: every
partial emission in order, then the single final response. -/
def generateStream {J : Type} (ext : Ext J) (chunks : List StreamChunk) :
    List (LLMResponse J) :=
  let r := streamFold (initState J) chunks
  r.2 ++ [finalResponse ext r.1]

/-! ## Message and response converters -/

/-- The adapter's error values: the distinguished `ErrNoChoicesInResponse`
(openai.go:20), and the wrapped `json.Marshal` failures of
`toOpenAIChatCompletionMessage`. -/
inductive ConvError where
  | noChoicesInResponse
  | marshalFailure
  deriving DecidableEq

/-- The mutable locals of the slow path of `toOpenAIChatCompletionMessage`
(openai.go:304-307) together with the message being built. -/
structure MsgAcc where
  msg : ChatCompletionMessage
  textContent : String := ""
  toolCalls : List ToolCall := []
  multiContent : List ChatMessagePart := []
  deriving DecidableEq

/-- One iteration of the part loop of `toOpenAIChatCompletionMessage`
(openai.go:309-365). -/
def processMsgPart {J : Type} (ext : Ext J) (partsLen : Nat) (acc : MsgAcc)
    (p : Part J) : Except ConvError MsgAcc :=
  let acc :=
    if p.text ≠ "" then
      if partsLen = 1 then { acc with textContent := p.text }
      else { acc with multiContent := acc.multiContent ++
              [{ type := ChatMessagePartTypeText, text := p.text }] }
    else acc
  do
  let acc ←
    match p.functionCall with
    | some fc =>
      match ext.marshal fc.args with
      | none => Except.error ConvError.marshalFailure
      | some argsJSON =>
        Except.ok { acc with toolCalls := acc.toolCalls ++
          [{ id := fc.id, type := ToolTypeFunction
             function := { name := fc.name, arguments := argsJSON } }] }
    | none => Except.ok acc
  let acc ←
    match p.functionResponse with
    | some fr =>
      match ext.marshal fr.response with
      | none => Except.error ConvError.marshalFailure
      | some responseJSON =>
        Except.ok { acc with msg := { acc.msg with
          role := ChatMessageRoleTool
          content := responseJSON
          toolCallID := fr.id } }
    | none => Except.ok acc
  let acc :=
    match p.inlineData with
    | some bl =>
      let imageURL : ChatMessageImageURL :=
        { url := "data:" ++ bl.mimeType ++ ";base64," ++ ext.base64 bl.data
          detail := ImageURLDetailAuto }
      { acc with multiContent := acc.multiContent ++
          [{ type := ChatMessagePartTypeImageURL, imageURL := some imageURL }] }
    | none => acc
  return acc

/-- The slow path of `toOpenAIChatCompletionMessage` (openai.go:304-378):
iterate all parts, then retain multi-content over scalar text and attach
the tool calls when non-empty. -/
def toMessageSlow {J : Type} (ext : Ext J) (content : Content J)
    (msg0 : ChatCompletionMessage) : Except ConvError ChatCompletionMessage := do
  let acc ← content.parts.foldlM (processMsgPart ext content.parts.length)
    { msg := msg0 }
  let msg := acc.msg
  let msg :=
    if acc.multiContent ≠ [] then { msg with multiContent := acc.multiContent }
    else if acc.textContent ≠ "" then { msg with content := acc.textContent }
    else msg
  let msg :=
    if acc.toolCalls ≠ [] then { msg with toolCalls := acc.toolCalls } else msg
  return msg

/-- `toOpenAIChatCompletionMessage` (openai.go:293): the fast path fires
exactly when the content has one single part with non-empty text. -/
def toOpenAIChatCompletionMessage {J : Type} (ext : Ext J) (content : Content J) :
    Except ConvError ChatCompletionMessage :=
  let msg0 : ChatCompletionMessage := { role := convertRoleToOpenAI content.role }
  match content.parts with
  | [p] =>
    if p.text ≠ "" then Except.ok { msg0 with content := p.text }
    else toMessageSlow ext content msg0
  | _ => toMessageSlow ext content msg0

/-- `convertChatCompletionResponse` (openai.go:381). -/
def convertChatCompletionResponse {J : Type} (ext : Ext J)
    (resp : ChatCompletionResponse) : Except ConvError (LLMResponse J) :=
  match resp.choices with
  | [] => Except.error ConvError.noChoicesInResponse
  | choice :: _ =>
    let parts : List (Part J) :=
      if choice.message.content ≠ "" then [{ text := choice.message.content }] else []
    let parts := parts ++ choice.message.toolCalls.filterMap fun tc =>
      if tc.type = ToolTypeFunction then
        let fc : FunctionCall J :=
          { id := tc.id, name := tc.function.name
            args := parseJSONArgs ext tc.function.arguments }
        some { functionCall := some fc }
      else none
    let usageMetadata : Option UsageMetadata :=
      if resp.usage.totalTokens > 0 then
        some { promptTokenCount := int32cast resp.usage.promptTokens
               candidatesTokenCount := int32cast resp.usage.completionTokens
               totalTokenCount := int32cast resp.usage.totalTokens
               cachedContentTokenCount :=
                 match resp.usage.promptTokensDetails with
                 | some d => int32cast d.cachedTokens
                 | none => 0 }
      else none
    Except.ok
      { content := { role := RoleModel, parts := parts }
        usageMetadata := usageMetadata
        finishReason := convertFinishReason choice.finishReason
        turnComplete := true }

/-! ## Tool and schema converters -/

/-- `genai.FunctionDeclaration` (the fields the adapter reads);
`parametersJsonSchema` is the opaque `any` payload passed through
verbatim. -/
structure FunctionDeclaration (J : Type) where
  name : String := ""
  description : String := ""
  parametersJsonSchema : J
  deriving DecidableEq

/-- `genai.Tool` (the field the adapter reads); entries of the declaration
slice are nilable pointers. -/
structure GenAITool (J : Type) where
  functionDeclarations : List (Option (FunctionDeclaration J)) := []
  deriving DecidableEq

/-- `openai.FunctionDefinition` (the fields the adapter writes). -/
structure FunctionDefinition (J : Type) where
  name : String := ""
  description : String := ""
  parameters : J
  deriving DecidableEq

/-- `openai.Tool`. -/
structure OpenAITool (J : Type) where
  type : String := ""
  function : FunctionDefinition J
  deriving DecidableEq

/-- A Go slice distinguishing the nil slice (`none`) from non-nil ones:
`convertTools` starts with `var openaiTools []openai.Tool`, which is nil
until the first append. -/
def GoSlice (α : Type) : Type := Option (List α)

/-- Go `append` on a possibly nil slice: always yields a non-nil slice. -/
def goAppend {α : Type} (s : GoSlice α) (x : α) : GoSlice α :=
  some ((s.getD []) ++ [x])

/-- The wire descriptor built from one declaration (openai.go:446-453). -/
def wireToolOf {J : Type} (funcDecl : FunctionDeclaration J) : OpenAITool J :=
  { type := ToolTypeFunction
    function := { name := funcDecl.name
                  description := funcDecl.description
                  parameters := funcDecl.parametersJsonSchema } }

/-- The inner declaration loop of `convertTools` (openai.go:440-455): a nil
declaration panics (modelled as `Except.error`); otherwise its descriptor
is appended. -/
def convertToolsDecls {J : Type} (acc : GoSlice (OpenAITool J)) :
    List (Option (FunctionDeclaration J)) → Except Unit (GoSlice (OpenAITool J))
  | [] => Except.ok acc
  | none :: _ => Except.error ()
  | some funcDecl :: rest => convertToolsDecls (goAppend acc (wireToolOf funcDecl)) rest

/-- The outer tool loop of `convertTools` (openai.go:434-456): nil tool
entries are skipped. -/
def convertToolsAux {J : Type} (acc : GoSlice (OpenAITool J)) :
    List (Option (GenAITool J)) → Except Unit (GoSlice (OpenAITool J))
  | [] => Except.ok acc
  | none :: rest => convertToolsAux acc rest
  | some genaiTool :: rest =>
    match convertToolsDecls acc genaiTool.functionDeclarations with
    | Except.error e => Except.error e
    | Except.ok acc => convertToolsAux acc rest

/-- `convertTools` (openai.go:431): the accumulator starts as the nil
slice `var openaiTools []openai.Tool`. -/
def convertTools {J : Type} (genaiTools : List (Option (GenAITool J))) :
    Except Unit (GoSlice (OpenAITool J)) :=
  convertToolsAux none genaiTools

/-! `genai.Schema` and `convertSchema`.  The schema node is recursive
through its properties map and its items pointer; to keep the recursion
structural the properties list and the nilable items pointer are embedded
as the mutually inductive `SProps` and `SItems` below. -/

mutual

/-- `genai.Schema` (the fields `convertSchema` reads): type, description,
properties, required, items, enum. -/
inductive Schema : Type where
  | mk : String → String → SProps → List String → SItems → List String → Schema

/-- The `map[string]*Schema` of properties, as an association list. -/
inductive SProps : Type where
  | nil : SProps
  | cons : String → Schema → SProps → SProps

/-- The nilable `*Schema` of array items. -/
inductive SItems : Type where
  | noItems : SItems
  | withItems : Schema → SItems

end

/-- The JSON-ish values appearing in the `map[string]any` result of
`convertSchema`. -/
inductive SJ : Type where
  | str : String → SJ
  | strList : List String → SJ
  | obj : List (String × SJ) → SJ

def Schema.type : Schema → String
  | .mk t _ _ _ _ _ => t

def Schema.description : Schema → String
  | .mk _ d _ _ _ _ => d

def Schema.properties : Schema → SProps
  | .mk _ _ p _ _ _ => p

def Schema.required : Schema → List String
  | .mk _ _ _ r _ _ => r

def Schema.items : Schema → SItems
  | .mk _ _ _ _ i _ => i

def Schema.enum : Schema → List String
  | .mk _ _ _ _ _ e => e

/-- `convertSchemaType` (openai.go:516): lowercase names for the known
types, `"string"` for everything else. -/
def convertSchemaType (t : String) : String :=
  if t = TypeString then "string"
  else if t = TypeNumber then "number"
  else if t = TypeInteger then "integer"
  else if t = TypeBoolean then "boolean"
  else if t = TypeArray then "array"
  else if t = TypeObject then "object"
  else "string"

/-- A conditional entry of the result mapping: Go `if cond { m[k] = v }`. -/
def optEntry (k : String) (v : Option SJ) : List (String × SJ) :=
  match v with
  | some x => [(k, x)]
  | none => []

mutual

/-- The non-nil case of `convertSchema` (openai.go:469-513), building the
result mapping entry by entry. -/
def convertSchemaObj : Schema → SJ
  | .mk t d props req items en =>
    SJ.obj
      (optEntry "type" (if t ≠ TypeUnspecified then some (SJ.str (convertSchemaType t)) else none)
       ++ optEntry "description" (if d ≠ "" then some (SJ.str d) else none)
       ++ optEntry "properties"
            (match props with
             | SProps.nil => none
             | _ => some (SJ.obj (convertSProps props)))
       ++ optEntry "required" (if req ≠ [] then some (SJ.strList req) else none)
       ++ optEntry "items"
            (match items with
             | SItems.noItems => none
             | SItems.withItems s => some (convertSchemaObj s))
       ++ optEntry "enum" (if en ≠ [] then some (SJ.strList en) else none))

/-- The recursion of `convertSchema` into the properties map
(openai.go:482-492). -/
def convertSProps : SProps → List (String × SJ)
  | SProps.nil => []
  | SProps.cons k s rest => (k, convertSchemaObj s) :: convertSProps rest

end

/-- `convertSchema` (openai.go:461) on the nilable schema pointer: nil
maps to the fixed object-typed mapping. -/
def convertSchema : Option Schema → SJ
  | none => SJ.obj [("type", SJ.str "object"), ("properties", SJ.obj [])]
  | some s => convertSchemaObj s

/-- Lookup in the result mapping of `convertSchema`. -/
def sjLookup : List (String × SJ) → String → Option SJ
  | [], _ => none
  | (k', v) :: rest, k => if k' = k then some v else sjLookup rest k

/-! ## Demo instantiation of the external collaborators, used to witness
theorems at concrete inputs. -/

/-- A concrete dynamic-mapping type for witnesses. -/
abbrev DemoJ : Type := List (String × String)

/-- A concrete external-collaborator record: its unmarshal succeeds only
on one well-formed JSON object text. -/
def demoExt : Ext DemoJ :=
  { marshal := fun _ => some "null"
    unmarshal := fun s =>
      if s = "\x7b\"location\":\"Paris\"\x7d" then some [("location", "Paris")]
      else none
    empty := []
    base64 := fun _ => "" }

/-! ## Bubble-sort correctness -/

theorem bubblePass_cons₂ (a b : Int) (rest : List Int) :
    bubblePass (a :: b :: rest) =
      if b < a then b :: bubblePass (a :: rest) else a :: bubblePass (b :: rest) := by
  simp [bubblePass]

theorem bubblePass_cons_perm (rest : List Int) :
    ∀ a : Int, (bubblePass (a :: rest)).Perm (a :: rest) := by
  induction rest with
  | nil => intro a; simp [bubblePass]
  | cons b rest ih =>
    intro a
    rw [bubblePass_cons₂]
    by_cases h : b < a
    · rw [if_pos h]
      exact ((ih a).cons b).trans (List.Perm.swap a b rest)
    · rw [if_neg h]
      exact (ih b).cons a

theorem bubblePass_perm (l : List Int) : (bubblePass l).Perm l := by
  match l with
  | [] => simp [bubblePass]
  | a :: rest => exact bubblePass_cons_perm rest a

theorem bubblePass_cons_split (rest : List Int) :
    ∀ a : Int, ∃ (l₂ : List Int) (m : Int), bubblePass (a :: rest) = l₂ ++ [m] ∧
      l₂.length = rest.length ∧ ∀ x ∈ a :: rest, x ≤ m := by
  induction rest with
  | nil =>
    intro a
    refine ⟨[], a, by simp [bubblePass], rfl, ?_⟩
    intro x hx
    simp at hx
    simp [hx]
  | cons b rest ih =>
    intro a
    rw [bubblePass_cons₂]
    by_cases h : b < a
    · obtain ⟨l₂, m, heq, hlen, hub⟩ := ih a
      refine ⟨b :: l₂, m, by simp [h, heq], by simp [hlen], ?_⟩
      intro x hx
      rcases List.mem_cons.mp hx with rfl | hx'
      · exact hub x (List.mem_cons_self x rest)
      rcases List.mem_cons.mp hx' with rfl | hx''
      · exact le_trans (le_of_lt h) (hub a (List.mem_cons_self a rest))
      · exact hub x (List.mem_cons_of_mem a hx'')
    · obtain ⟨l₂, m, heq, hlen, hub⟩ := ih b
      refine ⟨a :: l₂, m, by simp [h, heq], by simp [hlen], ?_⟩
      intro x hx
      rcases List.mem_cons.mp hx with rfl | hx'
      · exact le_trans (not_lt.mp h) (hub b (List.mem_cons_self b rest))
      · exact hub x hx'

theorem bubblePass_append_max (rest : List Int) :
    ∀ a m : Int, a ≤ m → (∀ x ∈ rest, x ≤ m) →
      bubblePass ((a :: rest) ++ [m]) = bubblePass (a :: rest) ++ [m] := by
  induction rest with
  | nil =>
    intro a m ham _
    simp only [List.nil_append, List.cons_append]
    rw [bubblePass_cons₂, if_neg (not_lt.mpr ham)]
    simp [bubblePass]
  | cons b rest ih =>
    intro a m ham hub
    have hbm : b ≤ m := hub b (List.mem_cons_self b rest)
    have hrest : ∀ x ∈ rest, x ≤ m := fun x hx => hub x (List.mem_cons_of_mem b hx)
    simp only [List.cons_append]
    rw [bubblePass_cons₂, bubblePass_cons₂]
    by_cases h : b < a
    · rw [if_pos h, if_pos h, List.cons_append]
      have := ih a m ham hrest
      simp only [List.cons_append] at this
      rw [this]
    · rw [if_neg h, if_neg h, List.cons_append]
      have := ih b m hbm hrest
      simp only [List.cons_append] at this
      rw [this]

theorem sortPasses_perm (n : Nat) : ∀ l : List Int, (sortPasses n l).Perm l := by
  induction n with
  | zero => intro l; simp [sortPasses]
  | succ n ih =>
    intro l
    simp only [sortPasses]
    exact (ih (bubblePass l)).trans (bubblePass_perm l)

theorem sortPasses_append_max (n : Nat) :
    ∀ (l : List Int) (m : Int), (∀ x ∈ l, x ≤ m) →
      sortPasses n (l ++ [m]) = sortPasses n l ++ [m] := by
  induction n with
  | zero => intro l m _; simp [sortPasses]
  | succ n ih =>
    intro l m hub
    simp only [sortPasses]
    have hpass : bubblePass (l ++ [m]) = bubblePass l ++ [m] := by
      match l with
      | [] => simp [bubblePass]
      | a :: rest =>
        exact bubblePass_append_max rest a m (hub a (List.mem_cons_self a rest))
          (fun x hx => hub x (List.mem_cons_of_mem a hx))
    rw [hpass]
    exact ih (bubblePass l) m
      (fun x hx => hub x ((bubblePass_perm l).mem_iff.mp hx))

theorem sortPasses_sorted (n : Nat) :
    ∀ l : List Int, l.length ≤ n + 1 → (sortPasses n l).Sorted (· ≤ ·) := by
  induction n with
  | zero =>
    intro l hlen
    match l with
    | [] => simp [sortPasses]
    | [a] => simp [sortPasses]
    | a :: b :: rest => simp at hlen
  | succ n ih =>
    intro l hlen
    match l with
    | [] =>
      simp only [sortPasses, bubblePass]
      exact ih [] (by simp)
    | a :: rest =>
      obtain ⟨l₂, m, heq, hl₂, hub⟩ := bubblePass_cons_split rest a
      have hubl₂ : ∀ x ∈ l₂, x ≤ m := by
        intro x hx
        have hx' : x ∈ l₂ ++ [m] := List.mem_append_left _ hx
        rw [← heq] at hx'
        exact hub x ((bubblePass_perm (a :: rest)).mem_iff.mp hx')
      simp only [sortPasses, heq]
      rw [sortPasses_append_max n l₂ m hubl₂]
      have hsorted : (sortPasses n l₂).Sorted (· ≤ ·) := by
        apply ih
        simp at hlen
        omega
      rw [List.Sorted, List.pairwise_append]
      refine ⟨hsorted, by simp, ?_⟩
      intro x hx y hy
      simp at hy
      subst hy
      exact hubl₂ x ((sortPasses_perm n l₂).mem_iff.mp hx)

theorem bubbleSort_perm (l : List Int) : (bubbleSort l).Perm l := sortPasses_perm _ l

theorem bubbleSort_sorted (l : List Int) : (bubbleSort l).Sorted (· ≤ ·) :=
  sortPasses_sorted _ l (by omega)

theorem bubbleSort_sorted_lt (l : List Int) (h : l.Nodup) :
    (bubbleSort l).Sorted (· < ·) :=
  (bubbleSort_sorted l).lt_of_le ((bubbleSort_perm l).nodup_iff.mpr h)

/-! ## Accumulator-map lemmas -/

theorem lookupEntry_setEntry (m : List (Int × ToolCallBuilder)) (k k' : Int)
    (b : ToolCallBuilder) :
    lookupEntry (setEntry m k b) k' = if k = k' then some b else lookupEntry m k' := by
  induction m with
  | nil => simp [setEntry, lookupEntry]
  | cons hd tl ih =>
    obtain ⟨k₀, b₀⟩ := hd
    simp only [setEntry]
    by_cases h₀ : k₀ = k
    · subst h₀
      simp only [if_pos rfl, lookupEntry]
      by_cases h' : k₀ = k'
      · simp [h']
      · simp [h']
    · rw [if_neg h₀]
      simp only [lookupEntry]
      by_cases h' : k₀ = k'
      · subst h'
        rw [if_pos rfl, if_neg (fun hkk => h₀ hkk.symm), if_pos rfl]
      · rw [if_neg h', if_neg h', ih]

theorem setEntry_keys (m : List (Int × ToolCallBuilder)) (k : Int)
    (b : ToolCallBuilder) :
    (setEntry m k b).map Prod.fst =
      if k ∈ m.map Prod.fst then m.map Prod.fst else m.map Prod.fst ++ [k] := by
  induction m with
  | nil => simp [setEntry]
  | cons hd tl ih =>
    obtain ⟨k₀, b₀⟩ := hd
    simp only [setEntry]
    by_cases h₀ : k₀ = k
    · subst h₀
      simp
    · rw [if_neg h₀]
      simp only [List.map_cons, ih, List.mem_cons]
      have hne : ¬ k = k₀ := fun h => h₀ h.symm
      by_cases hmem : k ∈ tl.map Prod.fst
      · simp [hmem, hne]
      · simp [hmem, hne]

theorem setEntry_keys_nodup (m : List (Int × ToolCallBuilder)) (k : Int)
    (b : ToolCallBuilder) (h : (m.map Prod.fst).Nodup) :
    ((setEntry m k b).map Prod.fst).Nodup := by
  rw [setEntry_keys]
  by_cases hmem : k ∈ m.map Prod.fst
  · simpa [hmem] using h
  · rw [if_neg hmem]
    simp [List.nodup_append, h, hmem]

theorem applyToolCallFragment_keys_nodup (m : List (Int × ToolCallBuilder))
    (tc : ToolCall) (h : (m.map Prod.fst).Nodup) :
    ((applyToolCallFragment m tc).map Prod.fst).Nodup := by
  simp only [applyToolCallFragment]
  exact setEntry_keys_nodup _ _ _ h

theorem foldl_fragments_keys_nodup (tcs : List ToolCall) :
    ∀ m : List (Int × ToolCallBuilder), (m.map Prod.fst).Nodup →
      ((tcs.foldl applyToolCallFragment m).map Prod.fst).Nodup := by
  induction tcs with
  | nil => intro m h; simpa using h
  | cons tc tcs ih =>
    intro m h
    simp only [List.foldl_cons]
    exact ih _ (applyToolCallFragment_keys_nodup m tc h)

/-- The map component of the state after one chunk: only the fragment fold
touches it. -/
theorem processChunk_toolCalls {J : Type} (st : StreamState J) (c : StreamChunk) :
    (processChunk st c).1.toolCalls =
      match c.choices with
      | [] => st.toolCalls
      | choice :: _ => choice.delta.toolCalls.foldl applyToolCallFragment st.toolCalls := by
  match hc : c.choices with
  | [] => simp [processChunk, hc]
  | choice :: rest =>
    simp only [processChunk, hc]
    by_cases h : choice.delta.content ≠ "" <;>
      cases hu : c.usage <;>
      by_cases hf : choice.finishReason ≠ "" <;>
      simp [h, hu, hf]

theorem streamFold_keys_nodup {J : Type} (cs : List StreamChunk) :
    ∀ st : StreamState J, (st.toolCalls.map Prod.fst).Nodup →
      (((streamFold st cs).1.toolCalls).map Prod.fst).Nodup := by
  induction cs with
  | nil => intro st h; simpa [streamFold] using h
  | cons c cs ih =>
    intro st h
    simp only [streamFold]
    apply ih
    rw [processChunk_toolCalls]
    match hc : c.choices with
    | [] => exact h
    | choice :: rest => exact foldl_fragments_keys_nodup _ _ h

/-! ## Per-chunk and whole-stream characterizations -/

/-- The text fragment a chunk contributes: the first choice's non-empty
delta text, if any (openai.go:116-136). -/
def chunkTextFragment (c : StreamChunk) : Option String :=
  match c.choices with
  | [] => none
  | choice :: _ => if choice.delta.content ≠ "" then some choice.delta.content else none

/-- All text fragments of a chunk sequence, in arrival order. -/
def textFragments (cs : List StreamChunk) : List String :=
  cs.filterMap chunkTextFragment

/-- The finish reason a chunk contributes (openai.go:170-173). -/
def chunkFinish (c : StreamChunk) : Option String :=
  match c.choices with
  | [] => none
  | choice :: _ => if choice.finishReason ≠ "" then some choice.finishReason else none

/-- All reported finish reasons of a chunk sequence, in arrival order. -/
def finishReports (cs : List StreamChunk) : List String :=
  cs.filterMap chunkFinish

/-- The usage a chunk contributes (openai.go:176-182); a chunk with no
choices is skipped before usage is read (openai.go:116-118). -/
def chunkUsage (c : StreamChunk) : Option WireUsage :=
  match c.choices with
  | [] => none
  | _ :: _ => c.usage

/-- All captured usage reports of a chunk sequence, in arrival order. -/
def usageReports (cs : List StreamChunk) : List WireUsage :=
  cs.filterMap chunkUsage

/-- The usage metadata built from one wire usage on the streaming path:
only the three token counts are copied; the cached-content count keeps its
zero value. -/
def usageOf (u : WireUsage) : UsageMetadata :=
  { promptTokenCount := int32cast u.promptTokens
    candidatesTokenCount := int32cast u.completionTokens
    totalTokenCount := int32cast u.totalTokens }

theorem processChunk_snd {J : Type} (st : StreamState J) (c : StreamChunk) :
    (processChunk st c).2 =
      match chunkTextFragment c with
      | some s => [partialTextResponse J s]
      | none => [] := by
  match hc : c.choices with
  | [] => simp [processChunk, chunkTextFragment, hc]
  | choice :: rest =>
    simp only [processChunk, chunkTextFragment, hc]
    by_cases h : choice.delta.content ≠ "" <;>
      cases hu : c.usage <;>
      by_cases hf : choice.finishReason ≠ "" <;>
      simp [h, hu, hf]

theorem processChunk_parts {J : Type} (st : StreamState J) (c : StreamChunk) :
    (processChunk st c).1.parts =
      st.parts ++ (match chunkTextFragment c with
      | some s => [({ text := s } : Part J)]
      | none => []) := by
  match hc : c.choices with
  | [] => simp [processChunk, chunkTextFragment, hc]
  | choice :: rest =>
    simp only [processChunk, chunkTextFragment, hc]
    by_cases h : choice.delta.content ≠ "" <;>
      cases hu : c.usage <;>
      by_cases hf : choice.finishReason ≠ "" <;>
      simp [h, hu, hf]

theorem processChunk_finish {J : Type} (st : StreamState J) (c : StreamChunk) :
    (processChunk st c).1.finishReason =
      match chunkFinish c with
      | some r => convertFinishReason r
      | none => st.finishReason := by
  match hc : c.choices with
  | [] => simp [processChunk, chunkFinish, hc]
  | choice :: rest =>
    simp only [processChunk, chunkFinish, hc]
    by_cases h : choice.delta.content ≠ "" <;>
      cases hu : c.usage <;>
      by_cases hf : choice.finishReason ≠ "" <;>
      simp [h, hu, hf]

theorem processChunk_usage {J : Type} (st : StreamState J) (c : StreamChunk) :
    (processChunk st c).1.usage =
      match chunkUsage c with
      | some u => some (usageOf u)
      | none => st.usage := by
  match hc : c.choices with
  | [] => simp [processChunk, chunkUsage, hc]
  | choice :: rest =>
    simp only [processChunk, chunkUsage, hc]
    by_cases h : choice.delta.content ≠ "" <;>
      cases hu : c.usage <;>
      by_cases hf : choice.finishReason ≠ "" <;>
      simp [h, hu, hf, usageOf]

theorem streamFold_snd {J : Type} (cs : List StreamChunk) :
    ∀ st : StreamState J,
      (streamFold st cs).2 = (textFragments cs).map (partialTextResponse J) := by
  induction cs with
  | nil => intro st; simp [streamFold, textFragments]
  | cons c cs ih =>
    intro st
    simp only [streamFold, textFragments, List.filterMap_cons]
    rw [processChunk_snd]
    cases hf : chunkTextFragment c <;> simp [ih, textFragments, hf]

theorem streamFold_parts {J : Type} (cs : List StreamChunk) :
    ∀ st : StreamState J,
      (streamFold st cs).1.parts =
        st.parts ++ (textFragments cs).map (fun s => ({ text := s } : Part J)) := by
  induction cs with
  | nil => intro st; simp [streamFold, textFragments]
  | cons c cs ih =>
    intro st
    simp only [streamFold, textFragments, List.filterMap_cons]
    rw [ih, processChunk_parts]
    cases hf : chunkTextFragment c <;> simp [textFragments, hf]

theorem streamFold_finish {J : Type} (cs : List StreamChunk) :
    ∀ st : StreamState J,
      (streamFold st cs).1.finishReason =
        match (finishReports cs).getLast? with
        | some r => convertFinishReason r
        | none => st.finishReason := by
  induction cs with
  | nil => intro st; simp [streamFold, finishReports]
  | cons c cs ih =>
    intro st
    simp only [streamFold, finishReports, List.filterMap_cons]
    rw [ih]
    cases hf : chunkFinish c with
    | none => simp [finishReports, processChunk_finish, hf]
    | some r =>
      simp only
      cases hrest : finishReports cs with
      | nil =>
        simp only [finishReports] at hrest
        simp [finishReports, hrest, processChunk_finish, hf]
      | cons r' rest =>
        simp only [finishReports] at hrest
        simp only [finishReports, hrest, List.getLast?_cons_cons]
        cases hl : (r' :: rest).getLast? with
        | none => simp at hl
        | some x => rfl

theorem streamFold_usage {J : Type} (cs : List StreamChunk) :
    ∀ st : StreamState J,
      (streamFold st cs).1.usage =
        match (usageReports cs).getLast? with
        | some u => some (usageOf u)
        | none => st.usage := by
  induction cs with
  | nil => intro st; simp [streamFold, usageReports]
  | cons c cs ih =>
    intro st
    simp only [streamFold, usageReports, List.filterMap_cons]
    rw [ih]
    cases hf : chunkUsage c with
    | none => simp [usageReports, processChunk_usage, hf]
    | some u =>
      simp only
      cases hrest : usageReports cs with
      | nil =>
        simp only [usageReports] at hrest
        simp [usageReports, hrest, processChunk_usage, hf]
      | cons u' rest =>
        simp only [usageReports] at hrest
        simp only [usageReports, hrest, List.getLast?_cons_cons]
        cases hl : (u' :: rest).getLast? with
        | none => simp at hl
        | some x => rfl

/-! ## The accumulator update invariant -/

/-- How one builder entry may evolve: a non-empty id (resp. name) never
becomes empty, a changed id (resp. name) is only ever replaced by a
non-empty one, and the argument text only grows by appending. -/
def BuilderEvolves (b b' : ToolCallBuilder) : Prop :=
  (b.id ≠ "" → b'.id ≠ "") ∧ (b'.id ≠ b.id → b'.id ≠ "") ∧
  (b.name ≠ "" → b'.name ≠ "") ∧ (b'.name ≠ b.name → b'.name ≠ "") ∧
  ∃ s, b'.args = b.args ++ s

theorem builderEvolves_refl (b : ToolCallBuilder) : BuilderEvolves b b :=
  ⟨fun h => h, fun h => absurd rfl h, fun h => h, fun h => absurd rfl h,
    "", by simp⟩

theorem builderEvolves_trans {a b c : ToolCallBuilder}
    (h₁ : BuilderEvolves a b) (h₂ : BuilderEvolves b c) : BuilderEvolves a c := by
  obtain ⟨i₁, i₁', n₁, n₁', s₁, hs₁⟩ := h₁
  obtain ⟨i₂, i₂', n₂, n₂', s₂, hs₂⟩ := h₂
  refine ⟨fun h => i₂ (i₁ h), ?_, fun h => n₂ (n₁ h), ?_, s₁ ++ s₂, by rw [hs₂, hs₁, String.append_assoc]⟩
  · intro hne
    by_cases hcb : c.id = b.id
    · exact hcb ▸ i₁' (fun hba => hne (hcb.trans hba))
    · exact i₂' hcb
  · intro hne
    by_cases hcb : c.name = b.name
    · exact hcb ▸ n₁' (fun hba => hne (hcb.trans hba))
    · exact n₂' hcb

theorem applyToolCallFragment_evolves (m : List (Int × ToolCallBuilder))
    (tc : ToolCall) (k : Int) (b : ToolCallBuilder)
    (h : lookupEntry m k = some b) :
    ∃ b', lookupEntry (applyToolCallFragment m tc) k = some b' ∧
      BuilderEvolves b b' := by
  simp only [applyToolCallFragment, lookupEntry_setEntry]
  by_cases hik : tc.index.getD 0 = k
  · rw [if_pos hik, hik, h]
    refine ⟨_, rfl, ?_, ?_, ?_, ?_, ?_⟩
    · intro hb
      by_cases hid : tc.id ≠ "" <;> simp [hid, hb]
    · intro hne
      by_cases hid : tc.id ≠ ""
      · simp [hid]
      · simp [hid] at hne
    · intro hb
      by_cases hna : tc.function.name ≠ "" <;> simp [hna, hb]
    · intro hne
      by_cases hna : tc.function.name ≠ ""
      · simp [hna]
      · simp [hna] at hne
    · by_cases hargs : tc.function.arguments ≠ ""
      · exact ⟨tc.function.arguments, by simp [hargs]⟩
      · exact ⟨"", by simp [hargs]⟩
  · rw [if_neg hik]
    exact ⟨b, h, builderEvolves_refl b⟩

theorem foldl_fragments_evolves (tcs : List ToolCall) :
    ∀ (m : List (Int × ToolCallBuilder)) (k : Int) (b : ToolCallBuilder),
      lookupEntry m k = some b →
      ∃ b', lookupEntry (tcs.foldl applyToolCallFragment m) k = some b' ∧
        BuilderEvolves b b' := by
  induction tcs with
  | nil => intro m k b h; exact ⟨b, h, builderEvolves_refl b⟩
  | cons tc tcs ih =>
    intro m k b h
    obtain ⟨b₁, h₁, he₁⟩ := applyToolCallFragment_evolves m tc k b h
    obtain ⟨b', h', he'⟩ := ih _ k b₁ h₁
    exact ⟨b', h', builderEvolves_trans he₁ he'⟩

/-! ## Claim theorems -/

/-- C1: for every chunk sequence ending in end-of-stream, the streaming
aggregator emits exactly one final response (the single non-partial
emission); its content appends, after all aggregated text parts, one
function-call part per accumulated tool-call index in strictly ascending
index order, and the final response has partial false and turn-complete
true. -/
theorem stream_final_unique_sorted {J : Type} (ext : Ext J)
    (chunks : List StreamChunk) :
    ∃ ks : List Int,
      ks.Perm (((streamFold (initState J) chunks).1.toolCalls).map Prod.fst) ∧
      ks.Sorted (· < ·) ∧
      (generateStream ext chunks).filter (fun r => !r.Partial) =
        [finalResponse ext (streamFold (initState J) chunks).1] ∧
      (finalResponse ext (streamFold (initState J) chunks).1).Partial = false ∧
      (finalResponse ext (streamFold (initState J) chunks).1).turnComplete = true ∧
      (finalResponse ext (streamFold (initState J) chunks).1).content.parts =
        (textFragments chunks).map (fun s => ({ text := s } : Part J)) ++
          ks.map (builderPart ext (streamFold (initState J) chunks).1.toolCalls) := by
  refine ⟨bubbleSort (((streamFold (initState J) chunks).1.toolCalls).map Prod.fst),
    bubbleSort_perm _, ?_, ?_, rfl, rfl, ?_⟩
  · exact bubbleSort_sorted_lt _
      (streamFold_keys_nodup chunks (initState J) (by simp [initState]))
  · have h1 : ((textFragments chunks).map (partialTextResponse J)).filter
        (fun r => !r.Partial) = [] := by
      rw [List.filter_eq_nil_iff]
      intro r hr
      obtain ⟨s, _, rfl⟩ := List.mem_map.mp hr
      simp [partialTextResponse]
    simp only [generateStream, List.filter_append, streamFold_snd, h1]
    simp [finalResponse]
  · simp only [finalResponse]
    rw [streamFold_parts chunks (initState J)]
    simp [initState]

/-- C2: processing a chunk preserves the accumulator invariant — a
non-empty id or name of an entry is never overwritten with an empty value
(only a non-empty fragment value replaces it) and the argument text only
grows by appending; a fragment with an absent index is applied to index
0. -/
theorem toolcall_accumulator_invariant {J : Type} (st : StreamState J)
    (c : StreamChunk) (k : Int) (b : ToolCallBuilder)
    (h : lookupEntry st.toolCalls k = some b) :
    (∃ b', lookupEntry (processChunk st c).1.toolCalls k = some b' ∧
      BuilderEvolves b b') ∧
    (∀ (m : List (Int × ToolCallBuilder)) (tc : ToolCall), tc.index = none →
      applyToolCallFragment m tc =
        applyToolCallFragment m { tc with index := some 0 }) := by
  constructor
  · rw [processChunk_toolCalls]
    cases hc : c.choices with
    | nil => exact ⟨b, h, builderEvolves_refl b⟩
    | cons choice rest => exact foldl_fragments_evolves _ _ k b h
  · intro m tc hidx
    simp [applyToolCallFragment, hidx]

/-- Witness for C2 at a concrete accumulator and chunk. -/
theorem toolcall_accumulator_invariant_witness :
    (∃ b', lookupEntry (processChunk (J := DemoJ)
        { toolCalls := [(0, { id := "call_123", name := "get_weather", args := "x" })] }
        { choices := [{ delta := { toolCalls :=
            [{ index := some 0, function := { arguments := "y" } }] } }] }).1.toolCalls
        0 = some b' ∧
      BuilderEvolves { id := "call_123", name := "get_weather", args := "x" } b') ∧
    (∀ (m : List (Int × ToolCallBuilder)) (tc : ToolCall), tc.index = none →
      applyToolCallFragment m tc =
        applyToolCallFragment m { tc with index := some 0 }) :=
  toolcall_accumulator_invariant
    { toolCalls := [(0, { id := "call_123", name := "get_weather", args := "x" })] }
    { choices := [{ delta := { toolCalls :=
        [{ index := some 0, function := { arguments := "y" } }] } }] }
    0 { id := "call_123", name := "get_weather", args := "x" } (by decide)

/-- C3: every chunk whose first choice carries non-empty delta text yields
immediately one partial response wrapping exactly that new fragment (with
partial true and turn-complete false), the whole partial-emission sequence
is the fragment sequence in arrival order, and the final response's
content carries all fragments in arrival order (before the function-call
parts). -/
theorem stream_partial_text_emissions {J : Type} (ext : Ext J)
    (chunks : List StreamChunk) :
    (∀ (st : StreamState J) (c : StreamChunk), (processChunk st c).2 =
      match chunkTextFragment c with
      | some s => [partialTextResponse J s]
      | none => []) ∧
    (streamFold (initState J) chunks).2 =
      (textFragments chunks).map (partialTextResponse J) ∧
    (∀ s, (partialTextResponse J s).Partial = true ∧
      (partialTextResponse J s).turnComplete = false ∧
      (partialTextResponse J s).content.parts = [{ text := s }]) ∧
    (finalResponse ext (streamFold (initState J) chunks).1).content.parts =
      (textFragments chunks).map (fun s => ({ text := s } : Part J)) ++
        (bubbleSort (((streamFold (initState J) chunks).1.toolCalls).map Prod.fst)).map
          (builderPart ext (streamFold (initState J) chunks).1.toolCalls) := by
  refine ⟨fun st c => processChunk_snd st c, streamFold_snd chunks _,
    fun s => ⟨rfl, rfl, rfl⟩, ?_⟩
  simp only [finalResponse]
  rw [streamFold_parts chunks (initState J)]
  simp [initState]

/-- C7 (amended): the final streaming response's finish reason is the
mapped value of the last reported finish reason, and the zero value `""`
(not the named constant `FINISH_REASON_UNSPECIFIED`) when the stream never
reported one. -/
theorem stream_finish_reason_last_write {J : Type} (ext : Ext J)
    (chunks : List StreamChunk) :
    (finalResponse ext (streamFold (initState J) chunks).1).finishReason =
      match (finishReports chunks).getLast? with
      | some r => convertFinishReason r
      | none => "" := by
  simp only [finalResponse]
  rw [streamFold_finish chunks (initState J)]
  cases h : (finishReports chunks).getLast? <;> simp [initState]

/-- Counterexample to C7 as stated: on a stream reporting no finish
reason, the final response's finish reason is the zero value `""`, which
is not the `FinishReasonUnspecified` constant of the genai package. -/
theorem stream_finish_reason_default_ce :
    finishReports ([] : List StreamChunk) = [] ∧
    (finalResponse demoExt (streamFold (initState DemoJ) []).1).finishReason = "" ∧
    (finalResponse demoExt (streamFold (initState DemoJ) []).1).finishReason ≠
      FinishReasonUnspecified :=
  ⟨rfl, rfl, by decide⟩

/-- C10: the final streaming response's usage metadata is built from the
last processed chunk that reported usage (none when never reported),
copying only the prompt, completion and total token counts; its
cached-content token count is always zero. -/
theorem stream_usage_last_cached_zero {J : Type} (ext : Ext J)
    (chunks : List StreamChunk) :
    (streamFold (initState J) chunks).1.usage =
      (match (usageReports chunks).getLast? with
       | some u => some (usageOf u)
       | none => none) ∧
    (finalResponse ext (streamFold (initState J) chunks).1).usageMetadata =
      (streamFold (initState J) chunks).1.usage ∧
    (∀ u : WireUsage,
      (usageOf u).promptTokenCount = int32cast u.promptTokens ∧
      (usageOf u).candidatesTokenCount = int32cast u.completionTokens ∧
      (usageOf u).totalTokenCount = int32cast u.totalTokens ∧
      (usageOf u).cachedContentTokenCount = 0) := by
  refine ⟨?_, rfl, fun u => ⟨rfl, rfl, rfl, rfl⟩⟩
  rw [streamFold_usage chunks (initState J)]
  cases h : (usageReports chunks).getLast? <;> simp [initState]

/-- C4: a Content with exactly one part of non-empty text converts to a
wire message with scalar content equal to that text, no multi-content and
no tool calls; converting back a wire response whose first choice carries
that same non-empty scalar content (and no tool calls) yields a generic
content with role model and exactly one identical text part. -/
theorem single_text_roundtrip {J : Type} (ext : Ext J) (c : Content J)
    (p : Part J) (hp : c.parts = [p]) (hne : p.text ≠ "")
    (resp : ChatCompletionResponse) (choice : ChatCompletionChoice)
    (rest : List ChatCompletionChoice) (hc : resp.choices = choice :: rest)
    (hm : choice.message.content = p.text)
    (htc : choice.message.toolCalls = []) :
    (∃ msg, toOpenAIChatCompletionMessage ext c = Except.ok msg ∧
      msg.content = p.text ∧ msg.multiContent = [] ∧ msg.toolCalls = []) ∧
    (∃ r, convertChatCompletionResponse ext resp = Except.ok r ∧
      r.content.role = RoleModel ∧
      r.content.parts = [({ text := p.text } : Part J)]) := by
  constructor
  · simp only [toOpenAIChatCompletionMessage, hp]
    rw [if_pos hne]
    exact ⟨_, rfl, rfl, rfl, rfl⟩
  · obtain ⟨choices, usage⟩ := resp
    simp only at hc
    subst hc
    simp only [convertChatCompletionResponse, hm, htc]
    rw [if_pos hne]
    exact ⟨_, rfl, rfl, by simp⟩

/-- Witness for C4 at the concrete text "Hello". -/
theorem single_text_roundtrip_witness :
    (∃ msg, toOpenAIChatCompletionMessage demoExt
        ({ role := "user", parts := [{ text := "Hello" }] } : Content DemoJ) =
        Except.ok msg ∧
      msg.content = "Hello" ∧ msg.multiContent = [] ∧ msg.toolCalls = []) ∧
    (∃ r, convertChatCompletionResponse demoExt
        { choices := [{ message := { content := "Hello" } }] } = Except.ok r ∧
      r.content.role = RoleModel ∧
      r.content.parts = [({ text := "Hello" } : Part DemoJ)]) :=
  single_text_roundtrip demoExt
    { role := "user", parts := [{ text := "Hello" }] } { text := "Hello" }
    rfl (by decide)
    { choices := [{ message := { content := "Hello" } }] }
    { message := { content := "Hello" } } [] rfl rfl rfl

/-- C5: converting a wire response with an empty choices list yields the
distinguished no-choices error (and hence no response); with at least one
choice it succeeds, reads only the first choice, and sets turn-complete
true. -/
theorem convert_response_choices {J : Type} (ext : Ext J)
    (resp : ChatCompletionResponse) :
    (resp.choices = [] →
      convertChatCompletionResponse ext resp =
        Except.error ConvError.noChoicesInResponse) ∧
    (∀ choice rest, resp.choices = choice :: rest →
      ∃ r, convertChatCompletionResponse ext resp = Except.ok r ∧
        r.turnComplete = true ∧
        ∀ rest', convertChatCompletionResponse ext
          { resp with choices := choice :: rest' } = Except.ok r) := by
  obtain ⟨choices, usage⟩ := resp
  constructor
  · intro h
    simp only at h
    subst h
    rfl
  · intro choice rest h
    simp only at h
    subst h
    exact ⟨_, rfl, rfl, fun rest' => rfl⟩

/-- Witness for C5: the empty-choices error and a one-choice success at
concrete inputs. -/
theorem convert_response_choices_witness :
    convertChatCompletionResponse demoExt
      ({ choices := [] } : ChatCompletionResponse) =
      Except.error ConvError.noChoicesInResponse ∧
    ∃ r, convertChatCompletionResponse demoExt
        ({ choices := [{}] } : ChatCompletionResponse) = Except.ok r ∧
      r.turnComplete = true := by
  constructor
  · exact (convert_response_choices demoExt { choices := [] }).1 rfl
  · obtain ⟨r, hr, ht, _⟩ :=
      (convert_response_choices demoExt { choices := [{}] }).2 {} [] rfl
    exact ⟨r, hr, ht⟩

/-- C6: tool-call argument parsing is best-effort — the empty string and
every string the JSON collaborator rejects parse to the empty mapping,
every accepted string parses to the returned mapping, and argument text
never fails the enclosing conversions: the non-streaming converter
succeeds on any response with choices, and the streaming aggregator always
emits its final response. -/
theorem json_args_best_effort {J : Type} (ext : Ext J) :
    parseJSONArgs ext "" = ext.empty ∧
    (∀ s, ext.unmarshal s = none → parseJSONArgs ext s = ext.empty) ∧
    (∀ s m, s ≠ "" → ext.unmarshal s = some m → parseJSONArgs ext s = m) ∧
    (∀ (resp : ChatCompletionResponse) choice rest,
      resp.choices = choice :: rest →
      ∃ r, convertChatCompletionResponse ext resp = Except.ok r) ∧
    (∀ chunks : List StreamChunk,
      generateStream ext chunks =
        (streamFold (initState J) chunks).2 ++
          [finalResponse ext (streamFold (initState J) chunks).1]) := by
  refine ⟨by simp [parseJSONArgs], ?_, ?_, ?_, fun chunks => rfl⟩
  · intro s h
    by_cases hs : s = ""
    · simp [parseJSONArgs, hs]
    · simp [parseJSONArgs, hs, h]
  · intro s m hs h
    simp [parseJSONArgs, hs, h]
  · intro resp choice rest h
    obtain ⟨choices, usage⟩ := resp
    simp only at h
    subst h
    exact ⟨_, rfl⟩

/-- Witness for C6 with the demo collaborator: the malformed text, the
empty string and one well-formed object text. -/
theorem json_args_best_effort_witness :
    parseJSONArgs demoExt "\x7binvalid\x7d" = demoExt.empty ∧
    parseJSONArgs demoExt "" = demoExt.empty ∧
    parseJSONArgs demoExt "\x7b\"location\":\"Paris\"\x7d" =
      [("location", "Paris")] ∧
    (∃ r, convertChatCompletionResponse demoExt { choices := [{}] } =
      Except.ok r) :=
  ⟨(json_args_best_effort demoExt).2.1 _ (by decide),
   (json_args_best_effort demoExt).1,
   (json_args_best_effort demoExt).2.2.1 _ _ (by decide) (by decide),
   (json_args_best_effort demoExt).2.2.2.1 _ {} [] rfl⟩

/-! ## `convertTools` -/

/-- The flattened wire descriptors: one per declaration of each non-nil
tool, in input order. -/
def declaredWireTools {J : Type} (genaiTools : List (Option (GenAITool J))) :
    List (OpenAITool J) :=
  (genaiTools.filterMap id).flatMap
    (fun t => (t.functionDeclarations.filterMap id).map wireToolOf)

/-- Input with no nil function declaration inside any non-nil tool: the
caller contract under which `convertTools` does not panic. -/
def GoodTools {J : Type} (genaiTools : List (Option (GenAITool J))) : Prop :=
  ∀ t? ∈ genaiTools, ∀ t : GenAITool J, t? = some t →
    ∀ fd ∈ t.functionDeclarations, fd ≠ none

theorem foldl_goAppend {α : Type} (xs : List α) :
    ∀ acc : GoSlice α, xs.foldl goAppend acc =
      match xs with
      | [] => acc
      | _ :: _ => some (acc.getD [] ++ xs) := by
  induction xs with
  | nil => intro acc; rfl
  | cons x xs ih =>
    intro acc
    simp only [List.foldl_cons]
    rw [ih (goAppend acc x)]
    cases xs with
    | nil => rfl
    | cons y ys => simp [goAppend]

theorem convertToolsDecls_ok {J : Type}
    (decls : List (Option (FunctionDeclaration J))) :
    ∀ acc : GoSlice (OpenAITool J), (∀ fd ∈ decls, fd ≠ none) →
      convertToolsDecls acc decls =
        Except.ok (((decls.filterMap id).map wireToolOf).foldl goAppend acc) := by
  induction decls with
  | nil => intro acc _; rfl
  | cons fd? decls ih =>
    intro acc h
    match fd? with
    | none => exact absurd rfl (h none (List.mem_cons_self _ _))
    | some fd =>
      simp only [convertToolsDecls, List.filterMap_cons, Option.some.injEq]
      rw [ih _ (fun x hx => h x (List.mem_cons_of_mem _ hx))]
      rfl

theorem convertToolsAux_ok {J : Type} (tools : List (Option (GenAITool J))) :
    ∀ acc : GoSlice (OpenAITool J), GoodTools tools →
      convertToolsAux acc tools =
        Except.ok ((declaredWireTools tools).foldl goAppend acc) := by
  induction tools with
  | nil => intro acc _; rfl
  | cons t? tools ih =>
    intro acc h
    have htail : GoodTools tools :=
      fun x hx t heq fd hfd => h x (List.mem_cons_of_mem _ hx) t heq fd hfd
    match t? with
    | none =>
      simp only [convertToolsAux, declaredWireTools, List.filterMap_cons]
      exact ih acc htail
    | some t =>
      have hdecls : ∀ fd ∈ t.functionDeclarations, fd ≠ none :=
        h (some t) (List.mem_cons_self _ _) t rfl
      simp only [convertToolsAux, declaredWireTools, List.filterMap_cons]
      rw [convertToolsDecls_ok _ acc hdecls]
      simp only
      rw [ih _ htail]
      simp [declaredWireTools, List.flatMap_cons, List.foldl_append]

/-- C8 (amended): on contract-respecting input `convertTools` returns one
wire descriptor per declaration, in input order, copying name and
description; on empty (or nil) input the result is the nil slice — a
length-zero result that is nil, not a non-nil empty slice. -/
theorem convertTools_shape {J : Type}
    (genaiTools : List (Option (GenAITool J))) (h : GoodTools genaiTools) :
    convertTools genaiTools =
      Except.ok (match declaredWireTools genaiTools with
        | [] => none
        | x :: xs => some (x :: xs)) ∧
    (genaiTools = [] → convertTools genaiTools = Except.ok none) ∧
    (∀ fd : FunctionDeclaration J,
      (wireToolOf fd).type = ToolTypeFunction ∧
      (wireToolOf fd).function.name = fd.name ∧
      (wireToolOf fd).function.description = fd.description) := by
  refine ⟨?_, ?_, fun fd => ⟨rfl, rfl, rfl⟩⟩
  · rw [convertTools, convertToolsAux_ok genaiTools none h, foldl_goAppend]
    cases hd : declaredWireTools genaiTools <;> simp
  · intro he
    subst he
    rfl

/-- Counterexample to C8 as stated: on the empty input `convertTools`
returns the nil slice (`none` in the `GoSlice` model), not a non-nil empty
slice. -/
theorem convertTools_empty_nil_ce :
    convertTools ([] : List (Option (GenAITool DemoJ))) = Except.ok none ∧
    convertTools ([] : List (Option (GenAITool DemoJ))) ≠
      Except.ok (some ([] : List (OpenAITool DemoJ))) := by
  refine ⟨rfl, fun h => ?_⟩
  rw [convertTools] at h
  injection h with h'
  exact Option.noConfusion h'

/-- A concrete function declaration for the C8 witness. -/
def demoDecl : FunctionDeclaration DemoJ :=
  { name := "get_weather", description := "Get the current weather"
    parametersJsonSchema := [] }

/-- Witness for C8 at one tool with one declaration. -/
theorem convertTools_shape_witness :
    convertTools [some ({ functionDeclarations := [some demoDecl] } :
        GenAITool DemoJ)] = Except.ok (some [wireToolOf demoDecl]) := by
  have hg : GoodTools [some ({ functionDeclarations := [some demoDecl] } :
      GenAITool DemoJ)] := by
    intro t? ht t heq fd hfd
    rw [List.mem_singleton] at ht
    subst ht
    cases heq
    rw [List.mem_singleton] at hfd
    subst hfd
    simp
  exact (convertTools_shape _ hg).1

/-! ## `convertSchema` -/

/-- The entry list of the mapping `convertSchemaObj` builds (the same body
as `convertSchemaObj`, exposed for lookup reasoning). -/
def schemaEntries (s : Schema) : List (String × SJ) :=
  match s with
  | .mk t d props req items en =>
    optEntry "type"
        (if t ≠ TypeUnspecified then some (SJ.str (convertSchemaType t)) else none)
      ++ optEntry "description" (if d ≠ "" then some (SJ.str d) else none)
      ++ optEntry "properties"
          (match props with
           | SProps.nil => none
           | _ => some (SJ.obj (convertSProps props)))
      ++ optEntry "required" (if req ≠ [] then some (SJ.strList req) else none)
      ++ optEntry "items"
          (match items with
           | SItems.noItems => none
           | SItems.withItems s => some (convertSchemaObj s))
      ++ optEntry "enum" (if en ≠ [] then some (SJ.strList en) else none)

theorem sjLookup_append (l₁ l₂ : List (String × SJ)) (k : String) :
    sjLookup (l₁ ++ l₂) k =
      match sjLookup l₁ k with
      | some v => some v
      | none => sjLookup l₂ k := by
  induction l₁ with
  | nil => rfl
  | cons hd tl ih =>
    obtain ⟨k₀, v₀⟩ := hd
    simp only [List.cons_append, sjLookup]
    by_cases h : k₀ = k
    · simp [h]
    · simp [h, ih]

theorem sjLookup_optEntry (k k' : String) (v : Option SJ) :
    sjLookup (optEntry k v) k' = if k = k' then v else none := by
  cases v with
  | none => simp [optEntry, sjLookup]
  | some x => simp [optEntry, sjLookup]

theorem sjLookup_skip (k k' : String) (v : Option SJ)
    (R : List (String × SJ)) (h : ¬ k = k') :
    sjLookup (optEntry k v ++ R) k' = sjLookup R k' := by
  rw [sjLookup_append, sjLookup_optEntry, if_neg h]

theorem sjLookup_here (k : String) (v : Option SJ) (R : List (String × SJ))
    (hnone : sjLookup R k = none) :
    sjLookup (optEntry k v ++ R) k = v := by
  rw [sjLookup_append, sjLookup_optEntry, if_pos rfl]
  cases v with
  | some x => rfl
  | none => exact hnone

/-- C9 (amended): `convertSchema` maps nil to the fixed object mapping;
for non-nil schemas it omits the `type` key entirely when the type equals
the `TYPE_UNSPECIFIED` constant and otherwise maps known types to their
lowercase names with `"string"` for every other value (including the zero
value), copies description, required and enum when non-empty, and recurses
into properties and items. -/
theorem convertSchema_shape :
    (convertSchema none =
      SJ.obj [("type", SJ.str "object"), ("properties", SJ.obj [])]) ∧
    (∀ s : Schema, convertSchemaObj s = SJ.obj (schemaEntries s)) ∧
    (∀ s : Schema,
      sjLookup (schemaEntries s) "type" =
        (if s.type ≠ TypeUnspecified then some (SJ.str (convertSchemaType s.type))
         else none) ∧
      sjLookup (schemaEntries s) "description" =
        (if s.description ≠ "" then some (SJ.str s.description) else none) ∧
      sjLookup (schemaEntries s) "properties" =
        (match s.properties with
         | SProps.nil => none
         | _ => some (SJ.obj (convertSProps s.properties))) ∧
      sjLookup (schemaEntries s) "required" =
        (if s.required ≠ [] then some (SJ.strList s.required) else none) ∧
      sjLookup (schemaEntries s) "items" =
        (match s.items with
         | SItems.noItems => none
         | SItems.withItems t => some (convertSchemaObj t)) ∧
      sjLookup (schemaEntries s) "enum" =
        (if s.enum ≠ [] then some (SJ.strList s.enum) else none)) ∧
    (∀ ty : String, ty ≠ TypeString → ty ≠ TypeNumber → ty ≠ TypeInteger →
      ty ≠ TypeBoolean → ty ≠ TypeArray → ty ≠ TypeObject →
      convertSchemaType ty = "string") := by
  refine ⟨rfl, fun s => by cases s; rw [convertSchemaObj.eq_def]; rfl, ?_, ?_⟩
  · intro s
    obtain ⟨t, d, props, req, items, en⟩ := s
    simp only [schemaEntries, Schema.type, Schema.description, Schema.properties,
      Schema.required, Schema.items, Schema.enum, List.append_assoc]
    refine ⟨?_, ?_, ?_, ?_, ?_, ?_⟩
    · rw [sjLookup_here]
      rw [sjLookup_skip _ _ _ _ (by decide), sjLookup_skip _ _ _ _ (by decide),
        sjLookup_skip _ _ _ _ (by decide), sjLookup_skip _ _ _ _ (by decide),
        sjLookup_optEntry, if_neg (by decide)]
    · rw [sjLookup_skip _ _ _ _ (by decide), sjLookup_here]
      rw [sjLookup_skip _ _ _ _ (by decide), sjLookup_skip _ _ _ _ (by decide),
        sjLookup_skip _ _ _ _ (by decide), sjLookup_optEntry, if_neg (by decide)]
    · rw [sjLookup_skip _ _ _ _ (by decide), sjLookup_skip _ _ _ _ (by decide),
        sjLookup_here]
      rw [sjLookup_skip _ _ _ _ (by decide), sjLookup_skip _ _ _ _ (by decide),
        sjLookup_optEntry, if_neg (by decide)]
    · rw [sjLookup_skip _ _ _ _ (by decide), sjLookup_skip _ _ _ _ (by decide),
        sjLookup_skip _ _ _ _ (by decide), sjLookup_here]
      rw [sjLookup_skip _ _ _ _ (by decide), sjLookup_optEntry, if_neg (by decide)]
    · rw [sjLookup_skip _ _ _ _ (by decide), sjLookup_skip _ _ _ _ (by decide),
        sjLookup_skip _ _ _ _ (by decide), sjLookup_skip _ _ _ _ (by decide),
        sjLookup_here]
      rw [sjLookup_optEntry, if_neg (by decide)]
    · rw [sjLookup_skip _ _ _ _ (by decide), sjLookup_skip _ _ _ _ (by decide),
        sjLookup_skip _ _ _ _ (by decide), sjLookup_skip _ _ _ _ (by decide),
        sjLookup_skip _ _ _ _ (by decide), sjLookup_optEntry, if_pos rfl]
  · intro ty h₁ h₂ h₃ h₄ h₅ h₆
    simp [convertSchemaType, h₁, h₂, h₃, h₄, h₅, h₆]

/-- Counterexample to C9 as stated: a schema whose type is the
`TYPE_UNSPECIFIED` constant produces a mapping with no `type` key at all,
rather than a `type` defaulted to `"string"`. -/
theorem convertSchema_unspecified_ce :
    sjLookup (schemaEntries
        (Schema.mk TypeUnspecified "" SProps.nil [] SItems.noItems [])) "type" =
      none ∧
    (none : Option SJ) ≠ some (SJ.str "string") := by
  refine ⟨rfl, fun h => ?_⟩
  exact Option.noConfusion h

/-- Witness for C9: the zero-value type string is outside the known set
and defaults to `"string"`, and a concrete schema with that type carries
`type = "string"` in its mapping. -/
theorem convertSchema_shape_witness :
    convertSchemaType "" = "string" ∧
    sjLookup (schemaEntries (Schema.mk "" "d" SProps.nil [] SItems.noItems []))
      "type" = some (SJ.str "string") := by
  constructor
  · exact convertSchema_shape.2.2.2 "" (by decide) (by decide) (by decide)
      (by decide) (by decide) (by decide)
  · have h := (convertSchema_shape.2.2.1
      (Schema.mk "" "d" SProps.nil [] SItems.noItems [])).1
    rw [h]
    rfl

end AdkOpenAI
